import Mathlib

/-!
Shallow embedding of the grain-price-analyzer pipeline.

Numbers are modelled by `ℚ` (the scripts use Python floats only for
comparisons, differences and divisions on parsed decimal data).
CSV cells are modelled by `Cell`: a cell either parses as a number or it
does not (`float(...)` raising `ValueError`/`TypeError`).
Calendar dates in canonical ISO form `YYYY-MM-DD` are modelled by the
natural number `YYYYMMDD`, which preserves both the lexicographic string
order and the parsed-date order used by the scripts.
-/

set_option autoImplicit false

/-- Python's `abs` on a rational value. -/
def absQ (q : ℚ) : ℚ := if q < 0 then -q else q

/-- A CSV cell: either a value that `float(...)` parses, or raw text that
does not parse as a number. -/
inductive Cell where
  | num (q : ℚ)
  | txt (s : String)
deriving DecidableEq

/-- A CSV data row as produced by `csv.DictReader`: an association of column
name to cell, one entry per column of the header. -/
abbrev Row := List (String × Cell)

/-- A CSV file: the header (`fieldnames`) and the data rows. -/
structure Csv where
  fieldnames : List String
  rows : List Row
deriving DecidableEq

/-- Dictionary lookup `row[col]` on a `DictReader` row. -/
def getCell (row : Row) (col : String) : Option Cell :=
  (row.find? (fun p => p.1 == col)).map (fun p => p.2)

/-- `float(row[col])` under the script's `try/except (ValueError, TypeError)`:
`some` value when the cell parses as a number, `none` otherwise (including a
missing cell, which `DictReader` fills with `None`). -/
def floatOf (row : Row) (col : String) : Option ℚ :=
  match getCell row col with
  | some (Cell.num q) => some q
  | _ => none

/-- `is_numeric_column` from `05_sanitize_csv.py`: every column except the
date column `fecha` is treated as numeric. -/
def is_numeric_column (column_name : String) : Bool :=
  column_name != "fecha"

/-- `OUTLIER_THRESHOLD_PERCENTAGE` from `05_sanitize_csv.py`. -/
def OUTLIER_THRESHOLD_PERCENTAGE : ℚ := 50

/-- Result of `calculate_percentage_difference`: a finite percentage or the
Python value `float('inf')`. -/
inductive PctDiff where
  | fin (q : ℚ)
  | inf
deriving DecidableEq

/-- `calculate_percentage_difference` from `05_sanitize_csv.py`. -/
def calculate_percentage_difference (current previous : ℚ) : PctDiff :=
  if previous = 0 then
    (if current ≠ 0 then PctDiff.inf else PctDiff.fin 0)
  else
    PctDiff.fin (absQ ((current - previous) / previous) * 100)

/-- The comparison `diff_percentage > OUTLIER_THRESHOLD_PERCENTAGE`
(`inf` compares greater than every finite threshold). -/
def PctDiff.exceeds : PctDiff → ℚ → Bool
  | PctDiff.inf, _ => true
  | PctDiff.fin q, t => decide (q > t)

/-- The lookahead loop `for j in range(1, 3)` of `sanitize_csv`: the change at
index `i` in column `col` is sustained when some existing row `i+j`
(`j ∈ {1, 2}`) has a parsable value `next` with
`|current - next| ≤ |previous - next|`. -/
def is_sustained_change (all_rows : List Row) (i : Nat) (col : String)
    (current_value previous_value : ℚ) : Bool :=
  (List.range' 1 2).any (fun j =>
    match all_rows.get? (i + j) with
    | some nextRow =>
        match floatOf nextRow col with
        | some next_value =>
            decide (absQ (current_value - next_value) ≤ absQ (previous_value - next_value))
        | none => false
    | none => false)

/-- The body of `for col in numeric_columns` in `sanitize_csv`: column `col`
marks row `i` as an outlier when both the current and the previous value
parse, their percentage difference exceeds the threshold, and the change is
not sustained in the lookahead window. -/
def column_is_outlier (all_rows : List Row) (i : Nat) (row previous_row : Row)
    (col : String) : Bool :=
  match floatOf row col, floatOf previous_row col with
  | some current_value, some previous_value =>
      if (calculate_percentage_difference current_value previous_value).exceeds
          OUTLIER_THRESHOLD_PERCENTAGE then
        ! is_sustained_change all_rows i col current_value previous_value
      else false
  | _, _ => false

/-- The `is_outlier` flag accumulated over `numeric_columns` in
`sanitize_csv` (the loop never breaks, so the flag is the running
disjunction over the columns). -/
def row_is_outlier (numeric_columns : List String) (all_rows : List Row)
    (i : Nat) (row previous_row : Row) : Bool :=
  numeric_columns.foldl
    (fun acc col => acc || column_is_outlier all_rows i row previous_row col)
    false

/-- The keep/discard decision of `sanitize_csv` for the row at index `i`:
index 0 is always kept, any later row is kept exactly when no numeric column
marks it as an outlier relative to the original row `i - 1`. -/
def keep_row (numeric_columns : List String) (all_rows : List Row)
    (i : Nat) (row : Row) : Bool :=
  if i == 0 then true
  else
    match all_rows.get? (i - 1) with
    | some previous_row => ! row_is_outlier numeric_columns all_rows i row previous_row
    | none => true

/-- `rows_to_keep` of `sanitize_csv`: the rows surviving the outlier filter,
in their original order. -/
def rows_to_keep (numeric_columns : List String) (all_rows : List Row) :
    List Row :=
  (all_rows.enum.filter (fun p => keep_row numeric_columns all_rows p.1 p.2)).map
    (fun p => p.2)

/-- The numeric columns of a header. -/
def numeric_columns_of (fieldnames : List String) : List String :=
  fieldnames.filter (fun col => is_numeric_column col)

/-- `sanitize_csv` from `05_sanitize_csv.py`: reads all rows, filters out
isolated outliers, and writes the kept rows under the unchanged header. -/
def sanitize_csv (input : Csv) : Csv :=
  { fieldnames := input.fieldnames,
    rows := rows_to_keep (numeric_columns_of input.fieldnames) input.rows }

/-- A calendar date `YYYY-MM-DD` in canonical ISO form, encoded as the
natural number `YYYYMMDD`; the encoding preserves the lexicographic order on
the date strings, which coincides with chronological order. -/
abbrev Date := Nat

/-- `START_DATE = '2018-07-01'` from `04_build_prices_csv.py`. -/
def START_DATE : Date := 20180701

/-- The exchange-rate dictionary built by `load_exchange_rates`, modelled by
its insertion sequence of `(date, rate)` bindings (a later binding for the
same date overwrites an earlier one, as in a Python dict). -/
abbrev ExchangeRates := List (Date × ℚ)

/-- Dictionary lookup `exchange_rates[date]` / `date in exchange_rates`:
the value of the last binding for `date`, if any. -/
def rateOf (exchange_rates : ExchangeRates) (date : Date) : Option ℚ :=
  (exchange_rates.reverse.find? (fun p => p.1 == date)).map (fun p => p.2)

/-- `exchange_rates.keys()`: each date bound by the dictionary, once. -/
def rateKeys (exchange_rates : ExchangeRates) : List Date :=
  (exchange_rates.map (fun p => p.1)).dedup

/-- `find_exchange_rate` from `04_build_prices_csv.py`: the rate at `date`
when the dictionary binds it, otherwise the rate at the first key not above
`date` in the reversed sorted key list (the most recent prior date), and
`None` when no key is at or below `date`. -/
def find_exchange_rate (date : Date) (exchange_rates : ExchangeRates) :
    Option ℚ :=
  match rateOf exchange_rates date with
  | some rate => some rate
  | none =>
      match (List.insertionSort (fun a b => a ≤ b)
          (rateKeys exchange_rates)).reverse.find? (fun k => decide (k ≤ date)) with
      | some k => rateOf exchange_rates k
      | none => none

/-- One cereal's field in `prices_ggsa.json`: the script reads it through
`cereal_data.get(key, '0.00')` and `float(...)`, so what matters is whether
the field is missing (the default `'0.00'` is used), is the literal string
`'0.00'` (which triggers the `estimativo` fallback for `precio`), parses to
some number, or fails to parse. -/
inductive PriceField where
  | missing
  | zeroStr
  | numv (q : ℚ)
  | unparsable
deriving DecidableEq

/-- `float(...)` on the string a `PriceField` stands for. -/
def parsePriceField : PriceField → Option ℚ
  | PriceField.missing => some 0
  | PriceField.zeroStr => some 0
  | PriceField.numv q => some q
  | PriceField.unparsable => none

/-- One cereal's entry in `pizarra[date]`. -/
structure CerealData where
  precio : PriceField
  estimativo : PriceField
deriving DecidableEq

/-- The per-cereal extraction step of `extract_cereal_prices_by_date`:
take `precio`, fall back to `estimativo` when `precio` is (or defaults to)
`'0.00'`, parse, and keep only strictly positive parsed prices. -/
def effective_price (cereal_data : CerealData) : Option ℚ :=
  let price_str :=
    if cereal_data.precio = PriceField.missing ∨
        cereal_data.precio = PriceField.zeroStr then
      cereal_data.estimativo
    else cereal_data.precio
  match parsePriceField price_str with
  | some price_ars => if 0 < price_ars then some price_ars else none
  | none => none

/-- One date's entry of `pizarra`: cereal name to cereal data. -/
abbrev DateData := List (String × CerealData)

/-- `cereal in date_data` / `date_data[cereal]`. -/
def lookupCereal (date_data : DateData) (cereal : String) : Option CerealData :=
  (date_data.find? (fun p => p.1 == cereal)).map (fun p => p.2)

/-- The inner loop of `extract_cereal_prices_by_date`: the positive parsed
price of each requested cereal present at the date, in the request order. -/
def date_prices_of (cereals : List String) (date_data : DateData) :
    List (String × ℚ) :=
  cereals.filterMap (fun cereal =>
    match lookupCereal date_data cereal with
    | some cereal_data => (effective_price cereal_data).map (fun q => (cereal, q))
    | none => none)

/-- `extract_cereal_prices_by_date` from `04_build_prices_csv.py`: each date
of `pizarra` that yields at least one cereal price, with its price map. -/
def extract_cereal_prices_by_date (pizarra : List (Date × DateData))
    (cereals : List String) : List (Date × List (String × ℚ)) :=
  pizarra.filterMap (fun p =>
    let date_prices := date_prices_of cereals p.2
    if date_prices.isEmpty then none else some (p.1, date_prices))

/-- Dictionary lookup `prices_by_date[date]` (last binding wins). -/
def pricesAt (prices_by_date : List (Date × List (String × ℚ))) (date : Date) :
    Option (List (String × ℚ)) :=
  (prices_by_date.reverse.find? (fun p => p.1 == date)).map (fun p => p.2)

/-- `date_prices.get(cereal, 0)`. -/
def priceOrZero (date_prices : List (String × ℚ)) (cereal : String) : ℚ :=
  ((date_prices.find? (fun p => p.1 == cereal)).map (fun p => p.2)).getD 0

/-- Python's `round` on a value exactly representable: round half to even. -/
def python_round_int (q : ℚ) : ℤ :=
  if q - Int.floor q < 1 / 2 then Int.floor q
  else if 1 / 2 < q - Int.floor q then Int.floor q + 1
  else if Int.floor q % 2 = 0 then Int.floor q else Int.floor q + 1

/-- `round(q, 2)`. -/
def round2 (q : ℚ) : ℚ := (python_round_int (q * 100) : ℚ) / 100

/-- One output row of `build_prices_csv`, in the header order
`fecha, maiz_ars, trigo_ars, soja_ars, tipo_cambio_usd, maiz_usd,
trigo_usd, soja_usd`. -/
structure OutRecord where
  fecha : Date
  maiz_ars : ℚ
  trigo_ars : ℚ
  soja_ars : ℚ
  tipo_cambio_usd : ℚ
  maiz_usd : ℚ
  trigo_usd : ℚ
  soja_usd : ℚ
deriving DecidableEq

/-- The row-emission step of `build_prices_csv` at one date: read the three
cereal prices (0 when absent), skip the date when any is zero, otherwise
emit the row with the USD conversions rounded to 2 decimals. -/
def build_record (date : Date) (date_prices : List (String × ℚ))
    (exchange_rate : ℚ) : Option OutRecord :=
  let maiz_ars := priceOrZero date_prices "maiz"
  let trigo_ars := priceOrZero date_prices "trigo"
  let soja_ars := priceOrZero date_prices "soja"
  if maiz_ars = 0 ∨ trigo_ars = 0 ∨ soja_ars = 0 then none
  else
    some { fecha := date
           maiz_ars := maiz_ars
           trigo_ars := trigo_ars
           soja_ars := soja_ars
           tipo_cambio_usd := exchange_rate
           maiz_usd := round2 (maiz_ars / exchange_rate)
           trigo_usd := round2 (trigo_ars / exchange_rate)
           soja_usd := round2 (soja_ars / exchange_rate) }

/-- The cereal list of `build_prices_csv`. -/
def theCereals : List String := ["maiz", "trigo", "soja"]

/-- `build_prices_csv` from `04_build_prices_csv.py` (the pure data
transformation: file I/O and progress printing omitted): extract the cereal
prices, walk the dates in ascending order, admit only dates at or after
`START_DATE` with a resolvable exchange rate, and emit the rows. -/
def build_prices_csv (pizarra : List (Date × DateData))
    (exchange_rates : ExchangeRates) : List OutRecord :=
  let prices_by_date := extract_cereal_prices_by_date pizarra theCereals
  let sorted_dates :=
    List.insertionSort (fun a b => a ≤ b) ((prices_by_date.map (fun p => p.1)).dedup)
  sorted_dates.filterMap (fun date_str =>
    if date_str < START_DATE then none
    else
      match find_exchange_rate date_str exchange_rates with
      | some exchange_rate =>
          match pricesAt prices_by_date date_str with
          | some date_prices => build_record date_str date_prices exchange_rate
          | none => none
      | none => none)

/-- A rational carries at most 2 decimal places. -/
def twoDecimals (q : ℚ) : Prop := (q * 100).den = 1

/-- Concrete test rows: a date cell and one numeric column `p`. -/
def mkRow (d : String) (v : ℚ) : Row := [("fecha", Cell.txt d), ("p", Cell.num v)]

/-- The two-row series `[100, 200]`: a large jump at the final record. -/
def jumpEndRows : List Row := [mkRow "d0" 100, mkRow "d1" 200]

/-- The two-row series as a CSV. -/
def jumpEndCsv : Csv := { fieldnames := ["fecha", "p"], rows := jumpEndRows }

/-- The spec's concrete scenario `[100, 100, 100, 200, 100, 100]`. -/
def spikeRows : List Row :=
  [mkRow "d0" 100, mkRow "d1" 100, mkRow "d2" 100,
   mkRow "d3" 200, mkRow "d4" 100, mkRow "d5" 100]

/-- The spike scenario as a CSV. -/
def spikeCsv : Csv := { fieldnames := ["fecha", "p"], rows := spikeRows }

/-- A series whose record 1 is an isolated spike (discarded), so that the
decision for record 2 is taken against a discarded original record. -/
def cascadeRows : List Row :=
  [mkRow "d0" 100, mkRow "d1" 1000, mkRow "d2" 100, mkRow "d3" 100]

/-- A sustained jump: the value doubles at index 1 and stays there. -/
def sustainedRows : List Row := [mkRow "d0" 100, mkRow "d1" 200, mkRow "d2" 200]

/-- A row whose `p` column does not parse as a number. -/
def badRow : Row := [("fecha", Cell.txt "d9"), ("p", Cell.txt "n-a")]

/-- The spike series with a different value at index 5, outside the decision
window of index 1. -/
def spikeRowsAlt : List Row :=
  [mkRow "d0" 100, mkRow "d1" 100, mkRow "d2" 100,
   mkRow "d3" 200, mkRow "d4" 100, mkRow "d5" 777]

/-- Folding a disjunction over a list is the same as `any`. -/
theorem foldl_or_eq_any {α : Type} (l : List α) (p : α → Bool) (b : Bool) :
    l.foldl (fun acc c => acc || p c) b = (b || l.any p) := by
  induction l generalizing b with
  | nil => simp
  | cons a t ih => simp [List.foldl_cons, ih (b || p a), Bool.or_assoc]

/-- The accumulated `is_outlier` flag of the column loop is the disjunction
of the per-column verdicts. -/
theorem row_is_outlier_eq_any (numeric_columns : List String)
    (all_rows : List Row) (i : Nat) (row previous_row : Row) :
    row_is_outlier numeric_columns all_rows i row previous_row =
      numeric_columns.any (fun col => column_is_outlier all_rows i row previous_row col) := by
  unfold row_is_outlier
  rw [foldl_or_eq_any]
  simp

/-- Pointwise-equal predicates give equal `any`. -/
theorem any_congr_of_eq {α : Type} (l : List α) (p q : α → Bool)
    (h : ∀ a, p a = q a) : l.any p = l.any q := by
  induction l with
  | nil => rfl
  | cons a t ih => simp [List.any_cons, h a, ih]

/-- The lookahead scan reads the series only at indices `i+1` and `i+2`. -/
theorem is_sustained_change_congr (rows rows' : List Row) (i : Nat)
    (col : String) (cv pv : ℚ)
    (h1 : rows.get? (i + 1) = rows'.get? (i + 1))
    (h2 : rows.get? (i + 2) = rows'.get? (i + 2)) :
    is_sustained_change rows i col cv pv = is_sustained_change rows' i col cv pv := by
  unfold is_sustained_change
  have hr : List.range' 1 2 = [1, 2] := rfl
  rw [hr]
  simp only [List.any_cons, List.any_nil]
  rw [h1, h2]

/-- The per-column verdict reads the series only at indices `i+1` and
`i+2` (besides the two rows it is handed). -/
theorem column_is_outlier_congr (rows rows' : List Row) (i : Nat)
    (row previous_row : Row) (col : String)
    (h1 : rows.get? (i + 1) = rows'.get? (i + 1))
    (h2 : rows.get? (i + 2) = rows'.get? (i + 2)) :
    column_is_outlier rows i row previous_row col =
      column_is_outlier rows' i row previous_row col := by
  unfold column_is_outlier
  cases hc : floatOf row col with
  | none => rfl
  | some cv =>
      cases hp : floatOf previous_row col with
      | none => rfl
      | some pv =>
          simp only [is_sustained_change_congr rows rows' i col cv pv h1 h2]

/-- The per-row verdict reads the series only at indices `i+1` and `i+2`
(besides the two rows it is handed). -/
theorem row_is_outlier_congr (numeric_columns : List String)
    (rows rows' : List Row) (i : Nat) (row previous_row : Row)
    (h1 : rows.get? (i + 1) = rows'.get? (i + 1))
    (h2 : rows.get? (i + 2) = rows'.get? (i + 2)) :
    row_is_outlier numeric_columns rows i row previous_row =
      row_is_outlier numeric_columns rows' i row previous_row := by
  rw [row_is_outlier_eq_any, row_is_outlier_eq_any]
  exact any_congr_of_eq _ _ _
    (fun col => column_is_outlier_congr rows rows' i row previous_row col h1 h2)

/-- C2: on the series `[100, 100, 100, 200, 100, 100]` (threshold 50,
lookahead 2) sanitize discards exactly the record at index 3 and keeps
`[100, 100, 100, 100, 100]` with the dates of the kept records unchanged;
the record at index 4 survives because its comparison rebases on the
original value 200, a 50.0% difference, which does not exceed the
threshold. -/
theorem spike_scenario_sanitized :
    sanitize_csv spikeCsv =
      { fieldnames := ["fecha", "p"],
        rows := [mkRow "d0" 100, mkRow "d1" 100, mkRow "d2" 100,
                 mkRow "d4" 100, mkRow "d5" 100] } ∧
    calculate_percentage_difference 100 200 = PctDiff.fin 50 ∧
    (PctDiff.fin 50).exceeds OUTLIER_THRESHOLD_PERCENTAGE = false := by
  refine ⟨?_, ?_, ?_⟩ <;> with_unfolding_all decide

/-- C10: sanitize writes the input's header unchanged, every kept row is an
input row, the kept rows form a subsequence of the input rows in their
original order, and the first input row is always kept (for an empty input
both sides have no first row). -/
theorem sanitize_frame (input : Csv) :
    (sanitize_csv input).fieldnames = input.fieldnames ∧
    List.Sublist (sanitize_csv input).rows input.rows ∧
    (sanitize_csv input).rows.head? = input.rows.head? := by
  refine ⟨rfl, ?_, ?_⟩
  · show List.Sublist (rows_to_keep (numeric_columns_of input.fieldnames) input.rows) input.rows
    unfold rows_to_keep
    have h1 := List.filter_sublist
      (p := fun p => keep_row (numeric_columns_of input.fieldnames) input.rows p.1 p.2)
      input.rows.enum
    have h2 := h1.map (fun p => p.2)
    have h3 : input.rows.enum.map (fun p => p.2) = input.rows := by
      simp [List.enum_map_snd]
    rwa [h3] at h2
  · show (rows_to_keep (numeric_columns_of input.fieldnames) input.rows).head? =
      input.rows.head?
    cases hrows : input.rows with
    | nil => rfl
    | cons r t =>
        unfold rows_to_keep
        have hk : keep_row (numeric_columns_of input.fieldnames) (r :: t) 0 r = true := rfl
        simp [List.enum_cons, List.filter_cons, hk]

/-- C8: an unparsable current or previous value makes the column contribute
no outlier signal (it never by itself discards the record), and the row
verdict is the plain disjunction of the per-column verdicts, so one
column's bad data never short-circuits the processing of the remaining
columns. -/
theorem bad_value_no_signal (all_rows : List Row) (i : Nat)
    (row previous_row : Row) (col : String) (numeric_columns : List String) :
    (floatOf row col = none ∨ floatOf previous_row col = none →
      column_is_outlier all_rows i row previous_row col = false) ∧
    row_is_outlier numeric_columns all_rows i row previous_row =
      numeric_columns.any (fun c => column_is_outlier all_rows i row previous_row c) := by
  constructor
  · intro h
    unfold column_is_outlier
    rcases h with h | h <;> rw [h]
    cases floatOf row col <;> rfl
  · exact row_is_outlier_eq_any numeric_columns all_rows i row previous_row

/-- Witness for C8 at a concrete input: the unparsable `p` cell of `badRow`
yields no outlier signal against a numeric previous value. -/
theorem bad_value_no_signal_witness :
    column_is_outlier [mkRow "d0" 100, badRow] 1 badRow (mkRow "d0" 100) "p" = false :=
  (bad_value_no_signal [mkRow "d0" 100, badRow] 1 badRow (mkRow "d0" 100) "p" ["p"]).1
    (Or.inl (by with_unfolding_all decide))

/-- C4: if the percentage difference at row `i` in column `col` exceeds the
threshold but some inspected lookahead row `i + j` (`j ∈ {1, 2}`) has a
parsable value `next` with `|curr - next| ≤ |prev - next|`, the change is
judged sustained and the column yields no outlier verdict, so the record is
not discarded on account of this column. -/
theorem sustained_trend_keeps (all_rows : List Row) (i : Nat)
    (row previous_row : Row) (col : String) (cv pv nv : ℚ) (j : Nat)
    (hcv : floatOf row col = some cv)
    (hpv : floatOf previous_row col = some pv)
    (hexc : (calculate_percentage_difference cv pv).exceeds
      OUTLIER_THRESHOLD_PERCENTAGE = true)
    (hj : j = 1 ∨ j = 2)
    (hnext : (all_rows.get? (i + j)).bind (fun r => floatOf r col) = some nv)
    (hsust : absQ (cv - nv) ≤ absQ (pv - nv)) :
    is_sustained_change all_rows i col cv pv = true ∧
    column_is_outlier all_rows i row previous_row col = false := by
  obtain ⟨r, hget, hfl⟩ := Option.bind_eq_some.mp hnext
  have hs : is_sustained_change all_rows i col cv pv = true := by
    unfold is_sustained_change
    have hr : List.range' 1 2 = [1, 2] := rfl
    rw [hr]
    simp only [List.any_cons, List.any_nil, Bool.or_eq_true]
    rcases hj with h | h <;> subst h
    · left
      simp only [hget, hfl]
      exact decide_eq_true hsust
    · right; left
      simp only [hget, hfl]
      exact decide_eq_true hsust
  refine ⟨hs, ?_⟩
  unfold column_is_outlier
  simp [hcv, hpv, hexc, hs]

/-- Witness for C4: on `[100, 200, 200]`, the doubled value at index 1 is
confirmed by the lookahead row at offset 1 and yields no outlier verdict. -/
theorem sustained_trend_keeps_witness :
    is_sustained_change sustainedRows 1 "p" 200 100 = true ∧
    column_is_outlier sustainedRows 1 (mkRow "d1" 200) (mkRow "d0" 100) "p" = false :=
  sustained_trend_keeps sustainedRows 1 (mkRow "d1" 200) (mkRow "d0" 100) "p"
    200 100 200 1
    (by with_unfolding_all decide) (by with_unfolding_all decide)
    (by with_unfolding_all decide) (Or.inl rfl)
    (by with_unfolding_all decide) (by with_unfolding_all decide)

/-- C5: for `i ≥ 1` the keep/discard decision of sanitize for the row at
index `i` is taken against the original input row at index `i - 1`
(whatever was decided about that row), so discarding a row never rebases
the comparison of the following row. -/
theorem original_prev_reference (numeric_columns : List String)
    (all_rows : List Row) (i : Nat) (row previous_row : Row)
    (h1 : 1 ≤ i)
    (_hi : all_rows.get? i = some row)
    (hp : all_rows.get? (i - 1) = some previous_row) :
    keep_row numeric_columns all_rows i row =
      ! row_is_outlier numeric_columns all_rows i row previous_row := by
  unfold keep_row
  have h0 : (i == 0) = false := by
    simp only [beq_eq_false_iff_ne, ne_eq]
    omega
  rw [h0, hp]
  rfl

/-- Witness for C5: in `[100, 1000, 100, 100]` the spike at index 1 is
discarded, yet the decision for index 2 still compares against the original
value 1000 at index 1. -/
theorem original_prev_reference_witness :
    keep_row ["p"] cascadeRows 2 (mkRow "d2" 100) =
      ! row_is_outlier ["p"] cascadeRows 2 (mkRow "d2" 100) (mkRow "d1" 1000) :=
  original_prev_reference ["p"] cascadeRows 2 (mkRow "d2" 100) (mkRow "d1" 1000)
    (by decide) (by decide) (by decide)

/-- C9: the keep/discard decision for the row at index `i` depends only on
the original rows at indices `i - 1` through `i + 2`: two series agreeing
there receive the same decision, independently of every other record and of
any other record's classification. -/
theorem decision_local (numeric_columns : List String)
    (rows rows' : List Row) (i : Nat) (row : Row)
    (hm1 : rows.get? (i - 1) = rows'.get? (i - 1))
    (h0 : rows.get? i = rows'.get? i)
    (h1 : rows.get? (i + 1) = rows'.get? (i + 1))
    (h2 : rows.get? (i + 2) = rows'.get? (i + 2))
    (hrow : rows.get? i = some row) :
    keep_row numeric_columns rows i row = keep_row numeric_columns rows' i row := by
  unfold keep_row
  by_cases hi : i = 0
  · subst hi; rfl
  · have hz : (i == 0) = false := by
      simp only [beq_eq_false_iff_ne, ne_eq]
      omega
    rw [hz, ← hm1]
    cases hpv : rows.get? (i - 1) with
    | none => rfl
    | some prev =>
        simp only [hpv]
        rw [row_is_outlier_congr numeric_columns rows rows' i row prev h1 h2]

/-- Witness for C9: the spike series and a variant differing only at index 5
produce the same decision for index 1 (window indices 0 through 3 agree). -/
theorem decision_local_witness :
    keep_row ["p"] spikeRows 1 (mkRow "d1" 100) =
      keep_row ["p"] spikeRowsAlt 1 (mkRow "d1" 100) :=
  decision_local ["p"] spikeRows spikeRowsAlt 1 (mkRow "d1" 100)
    (by with_unfolding_all decide) (by with_unfolding_all decide)
    (by with_unfolding_all decide) (by with_unfolding_all decide)
    (by with_unfolding_all decide)

/-- C1 counterexample: on the series `[100, 200]` the jump at the final
record (no lookahead rows exist) is classified as an outlier and the final
record is discarded, so a large jump at the end of a series is not kept. -/
theorem end_of_series_discard_counterexample :
    column_is_outlier jumpEndRows 1 (mkRow "d1" 200) (mkRow "d0" 100) "p" = true ∧
    sanitize_csv jumpEndCsv = { fieldnames := ["fecha", "p"], rows := [mkRow "d0" 100] } := by
  constructor <;> with_unfolding_all decide

/-- C1 amended: when the final record of a series (no lookahead rows exist)
differs from the previous record by more than the threshold in some numeric
column, the classifier finds no sustaining candidate, marks the record as an
isolated outlier, and sanitize discards it. -/
theorem end_of_series_discards (numeric_columns : List String)
    (all_rows : List Row) (i : Nat) (row previous_row : Row) (col : String)
    (cv pv : ℚ)
    (hlen : all_rows.length = i + 1)
    (h1 : 1 ≤ i)
    (_hi : all_rows.get? i = some row)
    (hp : all_rows.get? (i - 1) = some previous_row)
    (hcol : col ∈ numeric_columns)
    (hcv : floatOf row col = some cv)
    (hpv : floatOf previous_row col = some pv)
    (hexc : (calculate_percentage_difference cv pv).exceeds
      OUTLIER_THRESHOLD_PERCENTAGE = true) :
    row_is_outlier numeric_columns all_rows i row previous_row = true ∧
    keep_row numeric_columns all_rows i row = false := by
  have hnone1 : all_rows.get? (i + 1) = none := by
    rw [List.get?_eq_none]
    omega
  have hnone2 : all_rows.get? (i + 2) = none := by
    rw [List.get?_eq_none]
    omega
  have hs : is_sustained_change all_rows i col cv pv = false := by
    unfold is_sustained_change
    have hr : List.range' 1 2 = [1, 2] := rfl
    rw [hr]
    simp only [List.any_cons, List.any_nil, hnone1, hnone2, Bool.or_false]
  have hco : column_is_outlier all_rows i row previous_row col = true := by
    unfold column_is_outlier
    simp [hcv, hpv, hexc, hs]
  have hro : row_is_outlier numeric_columns all_rows i row previous_row = true := by
    rw [row_is_outlier_eq_any]
    exact List.any_eq_true.mpr ⟨col, hcol, hco⟩
  refine ⟨hro, ?_⟩
  unfold keep_row
  have h0 : (i == 0) = false := by
    simp only [beq_eq_false_iff_ne, ne_eq]
    omega
  rw [h0, hp]
  simp [hro]

/-- Witness for the amended C1 at the concrete series `[100, 200]`. -/
theorem end_of_series_discards_witness :
    row_is_outlier ["p"] jumpEndRows 1 (mkRow "d1" 200) (mkRow "d0" 100) = true ∧
    keep_row ["p"] jumpEndRows 1 (mkRow "d1" 200) = false :=
  end_of_series_discards ["p"] jumpEndRows 1 (mkRow "d1" 200) (mkRow "d0" 100) "p"
    200 100 (by decide) (by decide) (by decide) (by decide) (by decide)
    (by decide) (by decide) (by with_unfolding_all decide)

/-- The dictionary lookup misses exactly when the date is not a key. -/
theorem rateOf_eq_none_iff (exchange_rates : ExchangeRates) (date : Date) :
    rateOf exchange_rates date = none ↔ date ∉ rateKeys exchange_rates := by
  unfold rateOf rateKeys
  rw [Option.map_eq_none', List.find?_eq_none]
  constructor
  · intro h hmem
    rw [List.mem_dedup, List.mem_map] at hmem
    obtain ⟨p, hp, hpd⟩ := hmem
    have := h p (List.mem_reverse.mpr hp)
    simp [hpd] at this
  · intro h p hp hpd
    rw [beq_iff_eq] at hpd
    exact h (by
      rw [List.mem_dedup, List.mem_map]
      exact ⟨p, List.mem_reverse.mp hp, hpd⟩)

/-- On a descending list, `find?` for `≤ d` returns the greatest element
that is at most `d`. -/
theorem find_le_desc_some (l : List Nat) (d k : Nat)
    (hs : l.Pairwise (fun a b => b ≤ a))
    (h : l.find? (fun x => decide (x ≤ d)) = some k) :
    k ∈ l ∧ k ≤ d ∧ ∀ x ∈ l, x ≤ d → x ≤ k := by
  induction l with
  | nil => simp at h
  | cons a t ih =>
      obtain ⟨hhead, htail⟩ := List.pairwise_cons.mp hs
      by_cases ha : a ≤ d
      · rw [List.find?_cons_of_pos (p := fun x => decide (x ≤ d)) t (by simpa using ha)] at h
        obtain rfl : a = k := by
          injection h
        refine ⟨List.mem_cons_self a t, ha, ?_⟩
        intro x hx _
        rcases List.mem_cons.mp hx with rfl | hx
        · exact le_refl x
        · exact hhead x hx
      · rw [List.find?_cons_of_neg (p := fun x => decide (x ≤ d)) t (by simpa using ha)] at h
        obtain ⟨hkt, hkd, hkmax⟩ := ih htail h
        refine ⟨List.mem_cons_of_mem a hkt, hkd, ?_⟩
        intro x hx hxd
        rcases List.mem_cons.mp hx with rfl | hx
        · exact absurd hxd ha
        · exact hkmax x hx hxd

/-- If `find?` for `≤ d` misses, no element is at most `d`. -/
theorem find_le_none (l : List Nat) (d : Nat)
    (h : l.find? (fun x => decide (x ≤ d)) = none) :
    ∀ x ∈ l, ¬ x ≤ d := by
  intro x hx
  have := List.find?_eq_none.mp h x hx
  simpa using this

/-- Membership is preserved through sorting and reversing the key list. -/
theorem mem_sorted_rev_keys (exchange_rates : ExchangeRates) (x : Date) :
    x ∈ (List.insertionSort (fun a b => a ≤ b)
        (rateKeys exchange_rates)).reverse ↔ x ∈ rateKeys exchange_rates := by
  rw [List.mem_reverse]
  exact List.mem_insertionSort _

/-- The reversed sorted key list is descending. -/
theorem sorted_rev_keys_pairwise (exchange_rates : ExchangeRates) :
    ((List.insertionSort (fun a b => a ≤ b)
        (rateKeys exchange_rates)).reverse).Pairwise (fun a b : Nat => b ≤ a) := by
  rw [List.pairwise_reverse]
  exact List.sorted_insertionSort (fun a b => a ≤ b) (rateKeys exchange_rates)

/-- C6: `find_exchange_rate` returns the dictionary's rate at `date` when
`date` is a key; otherwise it returns the rate at the greatest key strictly
below `date`, and `none` when no key lies below `date`. -/
theorem resolve_rate_nearest_previous (date : Date) (exchange_rates : ExchangeRates) :
    (date ∈ rateKeys exchange_rates →
       find_exchange_rate date exchange_rates = rateOf exchange_rates date) ∧
    (date ∉ rateKeys exchange_rates →
       ((∃ k ∈ rateKeys exchange_rates, k < date) →
          ∃ k ∈ rateKeys exchange_rates, k < date ∧
            (∀ x ∈ rateKeys exchange_rates, x < date → x ≤ k) ∧
            find_exchange_rate date exchange_rates = rateOf exchange_rates k) ∧
       ((∀ k ∈ rateKeys exchange_rates, ¬ k < date) →
          find_exchange_rate date exchange_rates = none)) := by
  constructor
  · intro hmem
    have hne : rateOf exchange_rates date ≠ none := by
      intro hn
      exact (rateOf_eq_none_iff exchange_rates date).mp hn hmem
    obtain ⟨v, hv⟩ := Option.ne_none_iff_exists'.mp hne
    unfold find_exchange_rate
    rw [hv]
  · intro hnot
    have hnone : rateOf exchange_rates date = none :=
      (rateOf_eq_none_iff exchange_rates date).mpr hnot
    constructor
    · rintro ⟨k0, hk0mem, hk0lt⟩
      cases hfind : (List.insertionSort (fun a b => a ≤ b)
          (rateKeys exchange_rates)).reverse.find? (fun k => decide (k ≤ date)) with
      | none =>
          exact absurd (le_of_lt hk0lt)
            (find_le_none _ date hfind k0
              ((mem_sorted_rev_keys exchange_rates k0).mpr hk0mem))
      | some k =>
          obtain ⟨hkL, hkle, hkmax⟩ :=
            find_le_desc_some _ date k (sorted_rev_keys_pairwise exchange_rates) hfind
          have hkmem : k ∈ rateKeys exchange_rates :=
            (mem_sorted_rev_keys exchange_rates k).mp hkL
          have hkne : k ≠ date := fun h => hnot (h ▸ hkmem)
          refine ⟨k, hkmem, lt_of_le_of_ne hkle hkne, ?_, ?_⟩
          · intro x hx hxlt
            exact hkmax x ((mem_sorted_rev_keys exchange_rates x).mpr hx)
              (le_of_lt hxlt)
          · unfold find_exchange_rate
            rw [hnone, hfind]
    · intro hall
      cases hfind : (List.insertionSort (fun a b => a ≤ b)
          (rateKeys exchange_rates)).reverse.find? (fun k => decide (k ≤ date)) with
      | none =>
          unfold find_exchange_rate
          rw [hnone, hfind]
      | some k =>
          exfalso
          have hkp := List.find?_some hfind
          have hkle : k ≤ date := of_decide_eq_true hkp
          have hkmem : k ∈ rateKeys exchange_rates :=
            (mem_sorted_rev_keys exchange_rates k).mp (List.mem_of_find?_eq_some hfind)
          have hkne : k ≠ date := fun h => hnot (h ▸ hkmem)
          exact hall k hkmem (lt_of_le_of_ne hkle hkne)

/-- A concrete sparse exchange-rate dictionary. -/
def sampleRates : ExchangeRates := [(20190105, 40), (20190102, 38), (20190110, 42)]

/-- Witness for C6 at a concrete input: no key of `sampleRates` lies below
2019-01-01, so the lookup reports no rate. -/
theorem resolve_rate_nearest_previous_witness :
    find_exchange_rate 20190101 sampleRates = none :=
  ((resolve_rate_nearest_previous 20190101 sampleRates).2 (by decide)).2 (by decide)

/-- Every price recorded by the extraction step is strictly positive. -/
theorem date_prices_of_pos (cereals : List String) (date_data : DateData)
    (c : String) (q : ℚ) (h : (c, q) ∈ date_prices_of cereals date_data) :
    0 < q := by
  unfold date_prices_of at h
  rw [List.mem_filterMap] at h
  obtain ⟨cereal, _, heq⟩ := h
  cases hl : lookupCereal date_data cereal with
  | none => rw [hl] at heq; simp at heq
  | some cd =>
      rw [hl] at heq
      simp only [Option.map_eq_some'] at heq
      obtain ⟨q', hq', heq2⟩ := heq
      simp only [effective_price] at hq'
      cases hp : parsePriceField (if cd.precio = PriceField.missing ∨
          cd.precio = PriceField.zeroStr then cd.estimativo else cd.precio) with
      | none =>
          simp only [hp] at hq'
          exact absurd hq' (by simp)
      | some p =>
          simp only [hp] at hq'
          by_cases hpos : 0 < p
          · rw [if_pos hpos] at hq'
            obtain rfl : p = q' := by injection hq'
            injection heq2 with hc hq
            rw [← hq]
            exact hpos
          · rw [if_neg hpos] at hq'
            exact absurd hq' (by simp)

/-- A price map looked up in the extraction output comes from the
extraction of some raw date entry. -/
theorem pricesAt_extract (pizarra : List (Date × DateData)) (cereals : List String)
    (d : Date) (dp : List (String × ℚ))
    (h : pricesAt (extract_cereal_prices_by_date pizarra cereals) d = some dp) :
    ∃ dd : DateData, dp = date_prices_of cereals dd := by
  unfold pricesAt at h
  rw [Option.map_eq_some'] at h
  obtain ⟨p, hfind, hp2⟩ := h
  have hmem : p ∈ (extract_cereal_prices_by_date pizarra cereals).reverse :=
    List.mem_of_find?_eq_some hfind
  rw [List.mem_reverse] at hmem
  unfold extract_cereal_prices_by_date at hmem
  rw [List.mem_filterMap] at hmem
  obtain ⟨q, _, heq⟩ := hmem
  simp only at heq
  by_cases he : (date_prices_of cereals q.2).isEmpty
  · rw [if_pos he] at heq
    exact absurd heq (by simp)
  · rw [if_neg he] at heq
    obtain rfl : (q.1, date_prices_of cereals q.2) = p := by injection heq
    exact ⟨q.2, hp2 ▸ rfl⟩

/-- Inversion of the row-emission step: an emitted record carries the date,
the looked-up prices, the rate, and the rounded conversions, and none of
the three prices was zero. -/
theorem build_record_eq_some (date : Date) (dp : List (String × ℚ)) (rate : ℚ)
    (r : OutRecord) (h : build_record date dp rate = some r) :
    r.fecha = date ∧
    r.maiz_ars = priceOrZero dp "maiz" ∧
    r.trigo_ars = priceOrZero dp "trigo" ∧
    r.soja_ars = priceOrZero dp "soja" ∧
    r.tipo_cambio_usd = rate ∧
    r.maiz_usd = round2 (r.maiz_ars / rate) ∧
    r.trigo_usd = round2 (r.trigo_ars / rate) ∧
    r.soja_usd = round2 (r.soja_ars / rate) ∧
    priceOrZero dp "maiz" ≠ 0 ∧ priceOrZero dp "trigo" ≠ 0 ∧
    priceOrZero dp "soja" ≠ 0 := by
  unfold build_record at h
  by_cases hz : priceOrZero dp "maiz" = 0 ∨ priceOrZero dp "trigo" = 0 ∨
      priceOrZero dp "soja" = 0
  · rw [if_pos hz] at h
    exact absurd h (by simp)
  · rw [if_neg hz] at h
    obtain rfl : ({ fecha := date
                    maiz_ars := priceOrZero dp "maiz"
                    trigo_ars := priceOrZero dp "trigo"
                    soja_ars := priceOrZero dp "soja"
                    tipo_cambio_usd := rate
                    maiz_usd := round2 (priceOrZero dp "maiz" / rate)
                    trigo_usd := round2 (priceOrZero dp "trigo" / rate)
                    soja_usd := round2 (priceOrZero dp "soja" / rate) } : OutRecord) = r := by
      injection h
    push_neg at hz
    exact ⟨rfl, rfl, rfl, rfl, rfl, rfl, rfl, rfl, hz.1, hz.2.1, hz.2.2⟩

/-- A looked-up price that is nonzero is positive whenever every price in
the map is positive. -/
theorem priceOrZero_pos (dp : List (String × ℚ)) (cereal : String)
    (hall : ∀ c q, (c, q) ∈ dp → 0 < q)
    (hne : priceOrZero dp cereal ≠ 0) : 0 < priceOrZero dp cereal := by
  unfold priceOrZero at *
  cases hf : dp.find? (fun p => p.1 == cereal) with
  | none => rw [hf] at hne; simp at hne
  | some p =>
      simp only [Option.map_some', Option.getD_some]
      have hp : p ∈ dp := List.mem_of_find?_eq_some hf
      exact hall p.1 p.2 hp

/-- Structure of membership in the built series: an emitted record comes
from a date at or past the cutoff whose rate resolved and whose price map
was found. -/
theorem mem_build_prices (pizarra : List (Date × DateData))
    (exchange_rates : ExchangeRates) (r : OutRecord)
    (h : r ∈ build_prices_csv pizarra exchange_rates) :
    ∃ date rate dp,
      START_DATE ≤ date ∧
      find_exchange_rate date exchange_rates = some rate ∧
      pricesAt (extract_cereal_prices_by_date pizarra theCereals) date = some dp ∧
      build_record date dp rate = some r := by
  simp only [build_prices_csv] at h
  rw [List.mem_filterMap] at h
  obtain ⟨d, _, heq⟩ := h
  by_cases hlt : d < START_DATE
  · rw [if_pos hlt] at heq
    exact absurd heq (by simp)
  · rw [if_neg hlt] at heq
    cases hfr : find_exchange_rate d exchange_rates with
    | none => rw [hfr] at heq; exact absurd heq (by simp)
    | some rate =>
        rw [hfr] at heq
        simp only at heq
        cases hpa : pricesAt (extract_cereal_prices_by_date pizarra theCereals) d with
        | none => rw [hpa] at heq; exact absurd heq (by simp)
        | some dp =>
            rw [hpa] at heq
            exact ⟨d, rate, dp, Nat.le_of_not_lt hlt, hfr, hpa, heq⟩

/-- `round(q, 2)` always carries at most 2 decimal places. -/
theorem twoDecimals_round2 (q : ℚ) : twoDecimals (round2 q) := by
  unfold twoDecimals round2
  rw [div_mul_cancel₀ _ (show (100 : ℚ) ≠ 0 by norm_num)]
  exact Rat.den_intCast _

/-- C7: every record of the built series has a date at or past the cutoff,
carries the rate resolved for its date, and has all three commodity prices
strictly positive (never zero or missing). -/
theorem strict_completeness (pizarra : List (Date × DateData))
    (exchange_rates : ExchangeRates) (r : OutRecord)
    (h : r ∈ build_prices_csv pizarra exchange_rates) :
    START_DATE ≤ r.fecha ∧
    find_exchange_rate r.fecha exchange_rates = some r.tipo_cambio_usd ∧
    0 < r.maiz_ars ∧ 0 < r.trigo_ars ∧ 0 < r.soja_ars := by
  obtain ⟨date, rate, dp, hstart, hfr, hpa, hbr⟩ := mem_build_prices _ _ _ h
  obtain ⟨hfe, hm, ht, hs, htc, _, _, _, hm0, ht0, hs0⟩ :=
    build_record_eq_some _ _ _ _ hbr
  obtain ⟨dd, hdd⟩ := pricesAt_extract _ _ _ _ hpa
  have hall : ∀ c q, (c, q) ∈ dp → 0 < q := by
    intro c q hq
    exact date_prices_of_pos theCereals dd c q (hdd ▸ hq)
  refine ⟨?_, ?_, ?_, ?_, ?_⟩
  · rw [hfe]; exact hstart
  · rw [hfe, htc]; exact hfr
  · rw [hm]; exact priceOrZero_pos dp "maiz" hall hm0
  · rw [ht]; exact priceOrZero_pos dp "trigo" hall ht0
  · rw [hs]; exact priceOrZero_pos dp "soja" hall hs0

/-- C3 amended: in every built record the three USD fields equal the
corresponding local price divided by the rate, rounded (half to even) to 2
decimals — so the USD fields always carry at most 2 decimals; the local
price fields and the rate are written as parsed. -/
theorem usd_fields_rounded (pizarra : List (Date × DateData))
    (exchange_rates : ExchangeRates) (r : OutRecord)
    (h : r ∈ build_prices_csv pizarra exchange_rates) :
    r.maiz_usd = round2 (r.maiz_ars / r.tipo_cambio_usd) ∧
    r.trigo_usd = round2 (r.trigo_ars / r.tipo_cambio_usd) ∧
    r.soja_usd = round2 (r.soja_ars / r.tipo_cambio_usd) ∧
    twoDecimals r.maiz_usd ∧ twoDecimals r.trigo_usd ∧ twoDecimals r.soja_usd := by
  obtain ⟨date, rate, dp, hstart, hfr, hpa, hbr⟩ := mem_build_prices _ _ _ h
  obtain ⟨hfe, hm, ht, hs, htc, hmu, htu, hsu, _, _, _⟩ :=
    build_record_eq_some _ _ _ _ hbr
  refine ⟨?_, ?_, ?_, ?_, ?_, ?_⟩
  · rw [htc]; exact hmu
  · rw [htc]; exact htu
  · rw [htc]; exact hsu
  · rw [hmu]; exact twoDecimals_round2 _
  · rw [htu]; exact twoDecimals_round2 _
  · rw [hsu]; exact twoDecimals_round2 _

/-- A raw price table with a single date whose maize price carries three
decimal places. -/
def pzU : List (Date × DateData) :=
  [(20190101, [("maiz", ⟨PriceField.numv (1001/1000), PriceField.missing⟩),
               ("trigo", ⟨PriceField.numv 50, PriceField.missing⟩),
               ("soja", ⟨PriceField.numv 80, PriceField.missing⟩)])]

/-- A one-entry exchange-rate dictionary with rate 1. -/
def ratesOne : ExchangeRates := [(20190101, 1)]

/-- The price map extracted from `pzU` at its single date. -/
def dpU : List (String × ℚ) := [("maiz", 1001/1000), ("trigo", 50), ("soja", 80)]

/-- The record built from `pzU` and `ratesOne`. -/
def recU : OutRecord :=
  { fecha := 20190101, maiz_ars := 1001/1000, trigo_ars := 50, soja_ars := 80,
    tipo_cambio_usd := 1, maiz_usd := 1, trigo_usd := 50, soja_usd := 80 }

set_option maxRecDepth 1500 in
/-- Extraction evaluated on the concrete table `pzU`. -/
theorem pzU_extract :
    extract_cereal_prices_by_date pzU theCereals = [(20190101, dpU)] := by
  with_unfolding_all decide

/-- The row-emission step evaluated on the concrete price map `dpU`. -/
theorem dpU_build_record : build_record 20190101 dpU 1 = some recU := by
  simp only [build_record]
  rw [if_neg (by with_unfolding_all decide :
    ¬ (priceOrZero dpU "maiz" = 0 ∨ priceOrZero dpU "trigo" = 0 ∨
       priceOrZero dpU "soja" = 0))]
  rw [show priceOrZero dpU "maiz" = 1001/1000 from rfl,
      show priceOrZero dpU "trigo" = 50 from rfl,
      show priceOrZero dpU "soja" = 80 from rfl]
  rw [show round2 ((1001 : ℚ)/1000 / 1) = 1 from by with_unfolding_all decide,
      show round2 ((50 : ℚ) / 1) = 50 from by with_unfolding_all decide,
      show round2 ((80 : ℚ) / 1) = 80 from by with_unfolding_all decide]
  rfl

/-- The concrete record `recU` is in the series built from `pzU`. -/
theorem recU_mem_build : recU ∈ build_prices_csv pzU ratesOne := by
  simp only [build_prices_csv]
  rw [pzU_extract]
  apply List.mem_filterMap.mpr
  refine ⟨20190101, ?_, ?_⟩
  · apply (List.mem_insertionSort _).mpr
    apply List.mem_dedup.mpr
    exact List.mem_map.mpr ⟨(20190101, dpU), List.mem_cons_self _ _, rfl⟩
  · rw [if_neg (by decide : ¬ (20190101 : Date) < START_DATE)]
    rw [show find_exchange_rate 20190101 ratesOne = some 1 from rfl]
    simp only [show pricesAt [(20190101, dpU)] 20190101 = some dpU from rfl]
    exact dpU_build_record

/-- C3 counterexample: the built series can contain a record whose
`maiz_ars` field carries three decimal places — the local price fields are
not rounded to 2 decimals. -/
theorem unrounded_field_counterexample :
    recU ∈ build_prices_csv pzU ratesOne ∧ ¬ twoDecimals recU.maiz_ars := by
  refine ⟨recU_mem_build, ?_⟩
  show ¬ twoDecimals (1001/1000 : ℚ)
  unfold twoDecimals
  with_unfolding_all decide

/-- Witness for C7 at the concrete built record `recU`. -/
theorem strict_completeness_witness :
    START_DATE ≤ recU.fecha ∧
    find_exchange_rate recU.fecha ratesOne = some recU.tipo_cambio_usd ∧
    0 < recU.maiz_ars ∧ 0 < recU.trigo_ars ∧ 0 < recU.soja_ars :=
  strict_completeness pzU ratesOne recU recU_mem_build

/-- Witness for the amended C3 at the concrete built record `recU`. -/
theorem usd_fields_rounded_witness :
    recU.maiz_usd = round2 (recU.maiz_ars / recU.tipo_cambio_usd) ∧
    recU.trigo_usd = round2 (recU.trigo_ars / recU.tipo_cambio_usd) ∧
    recU.soja_usd = round2 (recU.soja_ars / recU.tipo_cambio_usd) ∧
    twoDecimals recU.maiz_usd ∧ twoDecimals recU.trigo_usd ∧
    twoDecimals recU.soja_usd :=
  usd_fields_rounded pzU ratesOne recU recU_mem_build
